import Mathlib

/-!
Shallow embedding of the pdfPageDetector sources: the pdfService helpers
(`getFileNameFromUrl`), the task data model, and the App component's
registry operations (`processUrls`, `runTasks`, `exportToExcel`).
JavaScript string primitives (`trim`, `startsWith`, `decodeURIComponent`)
and the browser `URL` constructor are modelled at the character level;
the fetch collaborator and the pdf.js-backed `getPageCount` inspector are
oracle parameters, as they are external collaborators of the core.
-/

namespace PdfPageDetector

/-- Model of JS `s.startsWith(p)`: `p.data` is a prefix of `s.data`. -/
def hasPrefixChars : List Char → List Char → Bool
  | [], _ => true
  | _ :: _, [] => false
  | p :: ps, c :: cs => p == c && hasPrefixChars ps cs

/-- JS `s.startsWith(p)`. -/
def strStarts (s p : String) : Bool :=
  hasPrefixChars p.data s.data

/-- JS `s.trim()`: strip leading and trailing whitespace. -/
def strTrim (s : String) : String :=
  String.mk (((s.data.dropWhile Char.isWhitespace).reverse.dropWhile Char.isWhitespace).reverse)

/-- Locate the first `://` separator, returning the characters before and after it. -/
def findSchemeSep : List Char → Option (List Char × List Char)
  | [] => none
  | ':' :: '/' :: '/' :: rest => some ([], rest)
  | c :: rest =>
    match findSchemeSep rest with
    | none => none
    | some (a, b) => some (c :: a, b)

/-- Characters allowed in a URL scheme after its leading letter. -/
def isSchemeChar (c : Char) : Bool :=
  c.isAlpha || c.isDigit || c == '+' || c == '-' || c == '.'

/-- The only field of the browser `URL` object that the app reads. -/
structure JSURL where
  pathname : String
deriving DecidableEq, Repr

/-- Modelled collaborator: the browser `new URL(url)` constructor, for the
hierarchical `scheme://host/path` shape the app feeds it (http/https).
`none` models the thrown `TypeError` on a malformed URL: no `://` head,
an invalid scheme, or an empty host. The `pathname` is the part from the
first `/` after the host up to the first `?` or `#`, and `/` when the
authority is not followed by a path. -/
def parseURL (url : String) : Option JSURL :=
  match findSchemeSep url.data with
  | none => none
  | some (schemeChars, rest) =>
    match schemeChars with
    | [] => none
    | c :: cs =>
      if c.isAlpha && cs.all isSchemeChar then
        let host := rest.takeWhile fun ch => !(ch == '/' || ch == '?' || ch == '#')
        let tail := rest.dropWhile fun ch => !(ch == '/' || ch == '?' || ch == '#')
        if host.isEmpty then none
        else
          match tail with
          | '/' :: _ => some ⟨String.mk (tail.takeWhile fun ch => !(ch == '?' || ch == '#'))⟩
          | _ => some ⟨String.mk ['/']⟩
      else none

/-- Value of a hexadecimal digit character. -/
def hexDigit? (c : Char) : Option Nat :=
  if '0' ≤ c ∧ c ≤ '9' then some (c.toNat - '0'.toNat)
  else if 'a' ≤ c ∧ c ≤ 'f' then some (c.toNat - 'a'.toNat + 10)
  else if 'A' ≤ c ∧ c ≤ 'F' then some (c.toNat - 'A'.toNat + 10)
  else none

/-- UTF-8 encoding of one character, as byte values. -/
def utf8EncodeCharNat (c : Char) : List Nat :=
  let n := c.toNat
  if n < 128 then [n]
  else if n < 2048 then [192 + n / 64, 128 + n % 64]
  else if n < 65536 then [224 + n / 4096, 128 + (n / 64) % 64, 128 + n % 64]
  else [240 + n / 262144, 128 + (n / 4096) % 64, 128 + (n / 64) % 64, 128 + n % 64]

/-- Percent-decoding to a byte sequence: `%hh` pairs become the byte `hh`; any
other character contributes its UTF-8 bytes. Fails on a `%` that is not
followed by two hex digits. -/
def pctBytes : List Char → Option (List Nat)
  | [] => some []
  | '%' :: c1 :: c2 :: rest =>
    match hexDigit? c1, hexDigit? c2, pctBytes rest with
    | some h1, some h2, some bs => some ((16 * h1 + h2) :: bs)
    | _, _, _ => none
  | '%' :: _ => none
  | c :: rest =>
    match pctBytes rest with
    | none => none
    | some bs => some (utf8EncodeCharNat c ++ bs)

/-- Is `b` a UTF-8 continuation byte? -/
def isCont (b : Nat) : Bool :=
  decide (128 ≤ b) && decide (b < 192)

/-- Fuel-indexed strict UTF-8 decoder (rejects overlong forms, surrogates and
out-of-range code points). -/
def utf8DecodeAux : Nat → List Nat → Option (List Char)
  | _, [] => some []
  | 0, _ :: _ => none
  | fuel + 1, b :: rest =>
    if b < 128 then
      match utf8DecodeAux fuel rest with
      | some cs => some (Char.ofNat b :: cs)
      | none => none
    else if 194 ≤ b ∧ b < 224 then
      match rest with
      | b2 :: rest' =>
        if isCont b2 then
          match utf8DecodeAux fuel rest' with
          | some cs => some (Char.ofNat ((b - 192) * 64 + (b2 - 128)) :: cs)
          | none => none
        else none
      | [] => none
    else if 224 ≤ b ∧ b < 240 then
      match rest with
      | b2 :: b3 :: rest' =>
        let cp := (b - 224) * 4096 + (b2 - 128) * 64 + (b3 - 128)
        if isCont b2 && isCont b3 && decide (2048 ≤ cp) && !(decide (55296 ≤ cp) && decide (cp < 57344)) then
          match utf8DecodeAux fuel rest' with
          | some cs => some (Char.ofNat cp :: cs)
          | none => none
        else none
      | _ => none
    else if 240 ≤ b ∧ b < 245 then
      match rest with
      | b2 :: b3 :: b4 :: rest' =>
        let cp := (b - 240) * 262144 + (b2 - 128) * 4096 + (b3 - 128) * 64 + (b4 - 128)
        if isCont b2 && isCont b3 && isCont b4 && decide (65536 ≤ cp) && decide (cp < 1114112) then
          match utf8DecodeAux fuel rest' with
          | some cs => some (Char.ofNat cp :: cs)
          | none => none
        else none
      | _ => none
    else none

/-- Modelled collaborator: JS `decodeURIComponent`. Decodes `%hh` escapes and
validates the resulting byte sequence as UTF-8; `none` models the thrown
`URIError`. -/
def decodeURIComponentM (s : String) : Option String :=
  match pctBytes s.data with
  | none => none
  | some bs =>
    match utf8DecodeAux bs.length bs with
    | none => none
    | some cs => some (String.mk cs)

/-- The file-name characters the source extracts from a pathname:
`pathname.substring(pathname.lastIndexOf('/') + 1)` then
`.split('?')[0].split('#')[0]`. -/
def cleanFileNameOf (pathname : String) : String :=
  let fileName := (pathname.data.reverse.takeWhile fun c => !(c == '/')).reverse
  String.mk ((fileName.takeWhile fun c => !(c == '?')).takeWhile fun c => !(c == '#'))

/-- `getFileNameFromUrl` from the pdfService source: last path segment of the
parsed URL, query/fragment stripped, percent-decoded; falls back to
`document.pdf` when URL parsing fails, decoding fails, or the result is empty. -/
def getFileNameFromUrl (url : String) : String :=
  match parseURL url with
  | none => "document.pdf"
  | some urlObj =>
    match decodeURIComponentM (cleanFileNameOf urlObj.pathname) with
    | none => "document.pdf"
    | some s => if s = "" then "document.pdf" else s

/-- The `TaskStatus` enum. -/
inductive TaskStatus where
  | idle
  | downloading
  | analyzing
  | completed
  | failed
deriving DecidableEq, Repr

/-- The `PdfTask` record. `id` is the uuid, modelled as a number. -/
structure PdfTask where
  id : Nat
  url : String
  fileName : String
  status : TaskStatus
  pageCount : Option Nat := none
  error : Option String := none
deriving DecidableEq, Repr

/-- The App component's state that the core operations touch. -/
structure AppState where
  tasks : List PdfTask
  isProcessing : Bool
deriving DecidableEq, Repr

/-- Task construction inside `processUrls`; `uuidv4()` is modelled by a counter
handing out fresh numeric ids. -/
def mkTask (id : Nat) (url : String) : PdfTask :=
  { id := id, url := url, fileName := getFileNameFromUrl url, status := TaskStatus.idle }

/-- The `processUrls` filter: JS truthiness of the (trimmed) string plus the
allowed-scheme check. -/
def validUrl (u : String) : Bool :=
  !(u == "") && (strStarts u ("http://") || strStarts u ("https://"))

/-- Build the new tasks for a list of (already trimmed and filtered) URLs,
assigning consecutive fresh ids. -/
def buildTasks : Nat → List String → List PdfTask
  | _, [] => []
  | n, u :: us => mkTask n u :: buildTasks (n + 1) us

/-- `processUrls` from the App source: trim every input, keep the truthy ones
that start with `http://` or `https://`, build Idle tasks for them and append
at the tail of the registry. (The early return on an empty `validUrls` list is
behaviorally the same as appending nothing.) -/
def processUrls (nextId : Nat) (urls : List String) (prev : List PdfTask) : List PdfTask :=
  prev ++ buildTasks nextId ((urls.map strTrim).filter validUrl)

/-- Outcome of the fetch collaborator: an HTTP response carrying a status code
and body bytes, or a transport-level error (a rejected fetch). -/
inductive FetchResult where
  | response (status : Nat) (body : List Nat)
  | networkError (msg : String)

/-- JS `response.ok`: status in the 2xx range. -/
def respOk (status : Nat) : Bool :=
  decide (200 ≤ status) && decide (status < 300)

/-- The combined outcome of step c-f of the run loop for one URL: transport
error text, the `HTTP <code>: Failed to download` message on a non-ok
response, the inspector's error, or the inspector's page count. -/
def fetchInspectResult (fetchF : String → FetchResult) (inspect : List Nat → Except String Nat)
    (url : String) : Except String Nat :=
  match fetchF url with
  | FetchResult.networkError msg => Except.error msg
  | FetchResult.response status body =>
    if respOk status then inspect body
    else Except.error (("HTTP ") ++ toString status ++ (": Failed to download"))

/-- One `setTasks(prev => prev.map(t => t.id === id ? f t : t))` call. -/
def setStatus (reg : List PdfTask) (id : Nat) (f : PdfTask → PdfTask) : List PdfTask :=
  reg.map fun t => if t.id = id then f t else t

/-- The `status: DOWNLOADING, error: undefined` update. -/
def dlU (t : PdfTask) : PdfTask :=
  { t with status := TaskStatus.downloading, error := none }

/-- The `status: ANALYZING` update. -/
def anU (t : PdfTask) : PdfTask :=
  { t with status := TaskStatus.analyzing }

/-- The `status: COMPLETED, pageCount` update. -/
def compU (n : Nat) (t : PdfTask) : PdfTask :=
  { t with status := TaskStatus.completed, pageCount := some n }

/-- The `status: FAILED, error: err.message` update. -/
def failU (m : String) (t : PdfTask) : PdfTask :=
  { t with status := TaskStatus.failed, error := some m }

/-- The registry states published (via `setTasks`) while the run loop handles
one snapshot task: none for a skipped Completed task, otherwise the
Downloading state, possibly the Analyzing state, and the terminal state. -/
def processTaskTrace (fetchF : String → FetchResult) (inspect : List Nat → Except String Nat)
    (reg : List PdfTask) (task : PdfTask) : List (List PdfTask) :=
  if task.status = TaskStatus.completed then []
  else
    let r1 := setStatus reg task.id dlU
    match fetchF task.url with
    | FetchResult.networkError msg => [r1, setStatus r1 task.id (failU msg)]
    | FetchResult.response status body =>
      if respOk status then
        let r2 := setStatus r1 task.id anU
        match inspect body with
        | Except.ok n => [r1, r2, setStatus r2 task.id (compU n)]
        | Except.error msg => [r1, r2, setStatus r2 task.id (failU msg)]
      else
        [r1, setStatus r1 task.id (failU (("HTTP ") ++ toString status ++ (": Failed to download")))]

/-- The registry after the run loop handles one snapshot task. -/
def processTask (fetchF : String → FetchResult) (inspect : List Nat → Except String Nat)
    (reg : List PdfTask) (task : PdfTask) : List PdfTask :=
  (processTaskTrace fetchF inspect reg task).getLastD reg

/-- The run loop over the frozen snapshot, threading the live registry. -/
def runAux (fetchF : String → FetchResult) (inspect : List Nat → Except String Nat) :
    List PdfTask → List PdfTask → List PdfTask
  | [], reg => reg
  | t :: ts, reg => runAux fetchF inspect ts (processTask fetchF inspect reg t)

/-- All registry states published during a run over the frozen snapshot. -/
def runTraceAux (fetchF : String → FetchResult) (inspect : List Nat → Except String Nat) :
    List PdfTask → List PdfTask → List (List PdfTask)
  | [], _ => []
  | t :: ts, reg =>
    processTaskTrace fetchF inspect reg t ++
      runTraceAux fetchF inspect ts (processTask fetchF inspect reg t)

/-- `runTasks` from the App source: snapshot the registry, process each
snapshot task in order, then clear `isProcessing`. -/
def runTasks (fetchF : String → FetchResult) (inspect : List Nat → Except String Nat)
    (s : AppState) : AppState :=
  { tasks := runAux fetchF inspect s.tasks s.tasks, isProcessing := false }

/-- The net per-task transformation a run applies to a processed task:
the composition of the Downloading update with the terminal update. -/
def endUpdate : Except String Nat → PdfTask → PdfTask
  | Except.ok n, t => { t with status := TaskStatus.completed, pageCount := some n, error := none }
  | Except.error m, t => { t with status := TaskStatus.failed, error := some m }

/-- The net effect of a run on one snapshot task: skipped when Completed,
otherwise terminalized according to the fetch/inspect outcome for its URL. -/
def endResult (fetchF : String → FetchResult) (inspect : List Nat → Except String Nat)
    (t : PdfTask) : PdfTask :=
  if t.status = TaskStatus.completed then t
  else endUpdate (fetchInspectResult fetchF inspect t.url) t

/-- The Page Count cell of the export. -/
inductive PageCell where
  | count (n : Nat)
  | text (s : String)
deriving DecidableEq, Repr

/-- One row of the exported sheet: File Name, URL, Page Count. -/
structure ExcelRow where
  fileName : String
  url : String
  pageCount : PageCell
deriving DecidableEq, Repr

/-- `exportToExcel` from the App source (the row data handed to the sheet):
the page-count cell is the recorded count when present, otherwise `Error`
for a Failed task and `Pending` for the rest. -/
def exportToExcel (tasks : List PdfTask) : List ExcelRow :=
  tasks.map fun t =>
    { fileName := t.fileName, url := t.url,
      pageCount :=
        match t.pageCount with
        | some n => PageCell.count n
        | none => if t.status = TaskStatus.failed then PageCell.text ("Error") else PageCell.text ("Pending") }

/-- The §3 payload invariant: `pageCount` present iff Completed, `error`
present iff Failed. -/
def TaskInv (t : PdfTask) : Prop :=
  (t.pageCount.isSome ↔ t.status = TaskStatus.completed) ∧
  (t.error.isSome ↔ t.status = TaskStatus.failed)

instance (t : PdfTask) : Decidable (TaskInv t) := by
  unfold TaskInv
  infer_instance

/-- A task holding the sequential resource (being downloaded or analyzed). -/
def isActive (t : PdfTask) : Bool :=
  t.status == TaskStatus.downloading || t.status == TaskStatus.analyzing

/-- A concrete fetch collaborator for concrete runs: one good document, one
404, one more good document, anything else a transport error. -/
def fetchW : String → FetchResult := fun url =>
  if url = ("https://a/x.pdf") then FetchResult.response 200 [1]
  else if url = ("https://b/404.pdf") then FetchResult.response 404 []
  else if url = ("https://c/z.pdf") then FetchResult.response 200 [2]
  else FetchResult.networkError ("net down")

/-- A concrete inspector for concrete runs. -/
def inspectW : List Nat → Except String Nat := fun body =>
  match body with
  | [1] => Except.ok 3
  | [2] => Except.ok 5
  | _ => Except.error ("bad pdf")

/-- A concrete three-task registry (all Idle). -/
def regW : List PdfTask :=
  [mkTask 0 ("https://a/x.pdf"), mkTask 1 ("https://b/404.pdf"), mkTask 2 ("https://c/z.pdf")]

/-- A concrete registry with one Completed and one Failed task. -/
def regW2 : List PdfTask :=
  [{ id := 0, url := ("https://a/x.pdf"), fileName := ("x.pdf"),
     status := TaskStatus.completed, pageCount := some 7, error := none },
   { id := 1, url := ("https://b/404.pdf"), fileName := ("404.pdf"),
     status := TaskStatus.failed, pageCount := none, error := some ("old error") }]

/-- A concrete task whose id is fresh for `regW`. -/
def extraW : PdfTask := mkTask 99 ("https://a/x.pdf")

theorem dlU_id (t : PdfTask) : (dlU t).id = t.id := rfl

theorem anU_id (t : PdfTask) : (anU t).id = t.id := rfl

theorem endUpdate_id (out : Except String Nat) (t : PdfTask) : (endUpdate out t).id = t.id := by
  cases out <;> rfl

theorem endResult_id (fetchF : String → FetchResult) (inspect : List Nat → Except String Nat)
    (t : PdfTask) : (endResult fetchF inspect t).id = t.id := by
  unfold endResult
  by_cases h : t.status = TaskStatus.completed
  · simp [h]
  · simp [h, endUpdate_id]

theorem fail_dl_eq (m : String) : (fun r => failU m (dlU r)) = endUpdate (Except.error m) := by
  funext r
  cases r
  rfl

theorem fail_an_dl_eq (m : String) :
    (fun r => failU m (anU (dlU r))) = endUpdate (Except.error m) := by
  funext r
  cases r
  rfl

theorem comp_an_dl_eq (n : Nat) :
    (fun r => compU n (anU (dlU r))) = endUpdate (Except.ok n) := by
  funext r
  cases r
  rfl

theorem setStatus_map_id (reg : List PdfTask) (i : Nat) (f : PdfTask → PdfTask)
    (hf : ∀ r, (f r).id = r.id) :
    (setStatus reg i f).map (fun t => t.id) = reg.map (fun t => t.id) := by
  unfold setStatus
  rw [List.map_map]
  apply List.map_congr_left
  intro t _
  by_cases h : t.id = i <;> simp [h, hf]

theorem setStatus_comp (reg : List PdfTask) (i : Nat) (f1 f2 : PdfTask → PdfTask)
    (hf : ∀ r, (f1 r).id = r.id) :
    setStatus (setStatus reg i f1) i f2 = setStatus reg i (fun r => f2 (f1 r)) := by
  unfold setStatus
  rw [List.map_map]
  apply List.map_congr_left
  intro t _
  by_cases h : t.id = i <;> simp [Function.comp, h, hf]

theorem setStatus_length (reg : List PdfTask) (i : Nat) (f : PdfTask → PdfTask) :
    (setStatus reg i f).length = reg.length := by
  unfold setStatus
  exact List.length_map reg _

/-- The run's net effect on a registry for one snapshot task: skip when the
snapshot status is Completed, otherwise apply the terminal update at the
task's id. -/
theorem processTask_eq (fetchF : String → FetchResult) (inspect : List Nat → Except String Nat)
    (reg : List PdfTask) (task : PdfTask) :
    processTask fetchF inspect reg task =
      if task.status = TaskStatus.completed then reg
      else setStatus reg task.id (endUpdate (fetchInspectResult fetchF inspect task.url)) := by
  unfold processTask processTaskTrace fetchInspectResult
  by_cases hc : task.status = TaskStatus.completed
  · simp [hc, List.getLastD]
  · simp only [hc, if_false, ite_false]
    cases hf : fetchF task.url with
    | networkError msg =>
      simp [List.getLastD, setStatus_comp reg task.id dlU (failU msg) dlU_id, fail_dl_eq]
    | response status body =>
      by_cases hok : respOk status
      · cases hg : inspect body with
        | ok n =>
          simp [hok, hg, List.getLastD,
            setStatus_comp reg task.id dlU anU dlU_id,
            setStatus_comp reg task.id (fun r => anU (dlU r)) (compU n) (fun r => rfl),
            comp_an_dl_eq]
        | error msg =>
          simp [hok, hg, List.getLastD,
            setStatus_comp reg task.id dlU anU dlU_id,
            setStatus_comp reg task.id (fun r => anU (dlU r)) (failU msg) (fun r => rfl),
            fail_an_dl_eq]
      · simp [hok, List.getLastD, setStatus_comp reg task.id dlU (failU _) dlU_id, fail_dl_eq]

theorem processTask_map_id (fetchF : String → FetchResult) (inspect : List Nat → Except String Nat)
    (reg : List PdfTask) (task : PdfTask) :
    (processTask fetchF inspect reg task).map (fun t => t.id) = reg.map (fun t => t.id) := by
  rw [processTask_eq]
  by_cases hc : task.status = TaskStatus.completed
  · simp [hc]
  · simp [hc, setStatus_map_id _ _ _ (endUpdate_id _)]

/-- Entries whose id differs from the processed task's id are untouched;
entries with that id become the processed task's end state. -/
theorem corr_processTask (fetchF : String → FetchResult) (inspect : List Nat → Except String Nat)
    (reg : List PdfTask) (task t' : PdfTask) (hne : t'.id ≠ task.id)
    (hcorr : ∀ r ∈ reg, r.id = t'.id → r = t') :
    ∀ r' ∈ processTask fetchF inspect reg task, r'.id = t'.id → r' = t' := by
  rw [processTask_eq]
  by_cases hc : task.status = TaskStatus.completed
  · simpa [hc] using hcorr
  · simp only [hc, if_false, ite_false, setStatus]
    intro r' hr' hid
    rcases List.mem_map.mp hr' with ⟨r, hr, hrr⟩
    by_cases h : r.id = task.id
    · exfalso
      rw [← hrr] at hid
      simp only [h, if_true, ite_true] at hid
      rw [endUpdate_id] at hid
      exact hne (h ▸ hid ▸ rfl)
    · rw [← hrr]
      simp only [h, if_false, ite_false]
      apply hcorr r hr
      rw [← hrr] at hid
      simpa [h] using hid

/-- Main characterization: running the loop over a snapshot whose ids are
distinct, against a registry whose entries agree with the snapshot on shared
ids, maps every registry entry with a snapshot id to its end state and leaves
every other entry alone. -/
theorem runAux_eq (fetchF : String → FetchResult) (inspect : List Nat → Except String Nat)
    (snap : List PdfTask) : ∀ (reg : List PdfTask),
    (snap.map (fun t => t.id)).Nodup →
    (∀ t ∈ snap, ∀ r ∈ reg, r.id = t.id → r = t) →
    runAux fetchF inspect snap reg =
      reg.map (fun r => if r.id ∈ snap.map (fun t => t.id) then endResult fetchF inspect r else r) := by
  induction snap with
  | nil =>
    intro reg _ _
    simp [runAux]
  | cons task rest ih =>
    intro reg hnd hcorr
    have hndc := hnd
    rw [List.map_cons, List.nodup_cons] at hndc
    have htid : task.id ∉ rest.map (fun t => t.id) := hndc.1
    have hndr : (rest.map (fun t => t.id)).Nodup := hndc.2
    have hstep : processTask fetchF inspect reg task =
        reg.map (fun r => if r.id = task.id then endResult fetchF inspect r else r) := by
      rw [processTask_eq]
      by_cases hc : task.status = TaskStatus.completed
      · simp only [hc, if_true, ite_true]
        symm
        have hpt : ∀ r ∈ reg, (if r.id = task.id then endResult fetchF inspect r else r) = r := by
          intro r hr
          by_cases h : r.id = task.id
          · have hrt : r = task := hcorr task (List.mem_cons_self task rest) r hr h
            simp [h, hrt, endResult, hc]
          · simp [h]
        calc reg.map (fun r => if r.id = task.id then endResult fetchF inspect r else r)
            = reg.map (fun r => r) := List.map_congr_left hpt
          _ = reg := List.map_id' reg
      · simp only [hc, if_false, ite_false, setStatus]
        apply List.map_congr_left
        intro r hr
        by_cases h : r.id = task.id
        · have hrt : r = task := hcorr task (List.mem_cons_self task rest) r hr h
          simp [h, hrt, endResult, hc]
        · simp [h]
    have hcorr' : ∀ t' ∈ rest, ∀ r' ∈ processTask fetchF inspect reg task, r'.id = t'.id → r' = t' := by
      intro t' ht'
      apply corr_processTask
      · intro he
        exact htid (he ▸ List.mem_map.mpr ⟨t', ht', rfl⟩)
      · intro r hr hid
        exact hcorr t' (List.mem_cons_of_mem task ht') r hr hid
    have hrw : runAux fetchF inspect (task :: rest) reg =
        runAux fetchF inspect rest (processTask fetchF inspect reg task) := rfl
    rw [hrw, ih (processTask fetchF inspect reg task) hndr hcorr', hstep, List.map_map]
    apply List.map_congr_left
    intro r hr
    by_cases h1 : r.id = task.id
    · have h2 : (endResult fetchF inspect r).id = task.id := by rw [endResult_id]; exact h1
      simp only [Function.comp, h1, if_true, ite_true, h2]
      have h3 : task.id ∉ rest.map (fun t => t.id) := htid
      simp [h2, h3, List.mem_cons, h1]
    · simp only [Function.comp, h1, if_false, ite_false]
      by_cases h2 : r.id ∈ rest.map (fun t => t.id) <;> simp [h1, h2, List.mem_cons]

/-- Mid-run appends with fresh ids are carried along untouched: running the
old snapshot against the extended registry processes only the snapshot part. -/
theorem runAux_append (fetchF : String → FetchResult) (inspect : List Nat → Except String Nat)
    (snap : List PdfTask) : ∀ (reg extra : List PdfTask),
    (∀ e ∈ extra, e.id ∉ snap.map (fun t => t.id)) →
    runAux fetchF inspect snap (reg ++ extra) = runAux fetchF inspect snap reg ++ extra := by
  induction snap with
  | nil =>
    intro reg extra _
    simp [runAux]
  | cons task rest ih =>
    intro reg extra hextra
    have hstep : processTask fetchF inspect (reg ++ extra) task =
        processTask fetchF inspect reg task ++ extra := by
      rw [processTask_eq, processTask_eq]
      by_cases hc : task.status = TaskStatus.completed
      · simp [hc]
      · simp only [hc, if_false, ite_false, setStatus, List.map_append]
        congr 1
        have : ∀ e ∈ extra, (if e.id = task.id then endUpdate (fetchInspectResult fetchF inspect task.url) e else e) = e := by
          intro e he
          have : e.id ≠ task.id := by
            intro h
            exact hextra e he (h ▸ List.mem_map.mpr ⟨task, List.mem_cons_self task rest, rfl⟩)
          simp [this]
        calc extra.map (fun e => if e.id = task.id then endUpdate (fetchInspectResult fetchF inspect task.url) e else e)
            = extra.map (fun e => e) := List.map_congr_left this
          _ = extra := List.map_id' extra
    have hextra' : ∀ e ∈ extra, e.id ∉ rest.map (fun t => t.id) := by
      intro e he hmem
      rcases List.mem_map.mp hmem with ⟨t', ht', hid⟩
      exact hextra e he (List.mem_map.mpr ⟨t', List.mem_cons_of_mem task ht', hid⟩)
    have hrw : runAux fetchF inspect (task :: rest) (reg ++ extra) =
        runAux fetchF inspect rest (processTask fetchF inspect (reg ++ extra) task) := rfl
    rw [hrw, hstep, ih (processTask fetchF inspect reg task) extra hextra']
    rfl

/-- Every registry state published while one snapshot task is handled is a
single by-id update of the incoming registry with one of the stage functions:
Downloading, Analyzing-after-Downloading, or a terminal update. -/
theorem trace_state_mem (fetchF : String → FetchResult) (inspect : List Nat → Except String Nat)
    (reg : List PdfTask) (task : PdfTask) (s : List PdfTask)
    (hs : s ∈ processTaskTrace fetchF inspect reg task) :
    task.status ≠ TaskStatus.completed ∧
    ∃ u : PdfTask → PdfTask, s = setStatus reg task.id u ∧ (∀ r, (u r).id = r.id) ∧
      (u = dlU ∨ u = (fun r => anU (dlU r)) ∨ ∃ out, u = endUpdate out) := by
  unfold processTaskTrace at hs
  by_cases hc : task.status = TaskStatus.completed
  · rw [if_pos hc] at hs
    exact absurd hs (List.not_mem_nil s)
  · rw [if_neg hc] at hs
    refine ⟨hc, ?_⟩
    cases hf : fetchF task.url with
    | networkError msg =>
      rw [hf] at hs
      simp only [List.mem_cons, List.not_mem_nil, or_false] at hs
      rcases hs with h | h
      · exact ⟨dlU, h, dlU_id, Or.inl rfl⟩
      · refine ⟨endUpdate (Except.error msg), ?_, endUpdate_id _, Or.inr (Or.inr ⟨_, rfl⟩)⟩
        rw [h, setStatus_comp reg task.id dlU (failU msg) dlU_id, fail_dl_eq]
    | response status body =>
      rw [hf] at hs
      simp only [] at hs
      by_cases hok : respOk status
      · rw [if_pos hok] at hs
        cases hg : inspect body with
        | ok n =>
          rw [hg] at hs
          simp only [List.mem_cons, List.not_mem_nil, or_false] at hs
          rcases hs with h | h | h
          · exact ⟨dlU, h, dlU_id, Or.inl rfl⟩
          · refine ⟨(fun r => anU (dlU r)), ?_, fun r => rfl, Or.inr (Or.inl rfl)⟩
            rw [h, setStatus_comp reg task.id dlU anU dlU_id]
          · refine ⟨endUpdate (Except.ok n), ?_, endUpdate_id _, Or.inr (Or.inr ⟨_, rfl⟩)⟩
            rw [h, setStatus_comp reg task.id dlU anU dlU_id,
              setStatus_comp reg task.id (fun r => anU (dlU r)) (compU n) (fun r => rfl),
              comp_an_dl_eq]
        | error msg =>
          rw [hg] at hs
          simp only [List.mem_cons, List.not_mem_nil, or_false] at hs
          rcases hs with h | h | h
          · exact ⟨dlU, h, dlU_id, Or.inl rfl⟩
          · refine ⟨(fun r => anU (dlU r)), ?_, fun r => rfl, Or.inr (Or.inl rfl)⟩
            rw [h, setStatus_comp reg task.id dlU anU dlU_id]
          · refine ⟨endUpdate (Except.error msg), ?_, endUpdate_id _, Or.inr (Or.inr ⟨_, rfl⟩)⟩
            rw [h, setStatus_comp reg task.id dlU anU dlU_id,
              setStatus_comp reg task.id (fun r => anU (dlU r)) (failU msg) (fun r => rfl),
              fail_an_dl_eq]
      · rw [if_neg hok] at hs
        simp only [List.mem_cons, List.not_mem_nil, or_false] at hs
        rcases hs with h | h
        · exact ⟨dlU, h, dlU_id, Or.inl rfl⟩
        · refine ⟨endUpdate (Except.error (("HTTP ") ++ toString status ++ (": Failed to download"))),
            ?_, endUpdate_id _, Or.inr (Or.inr ⟨_, rfl⟩)⟩
          rw [h, setStatus_comp reg task.id dlU (failU _) dlU_id, fail_dl_eq]

/-- A non-Completed snapshot task's segment opens with the Downloading state. -/
theorem dl_state_mem_trace (fetchF : String → FetchResult) (inspect : List Nat → Except String Nat)
    (reg : List PdfTask) (task : PdfTask) (hc : task.status ≠ TaskStatus.completed) :
    setStatus reg task.id dlU ∈ processTaskTrace fetchF inspect reg task := by
  unfold processTaskTrace
  rw [if_neg hc]
  cases fetchF task.url with
  | networkError msg => simp
  | response status body =>
    by_cases hok : respOk status
    · cases hg : inspect body <;> simp [hok, hg]
    · simp [hok]

/-- The trace of a concatenated snapshot splits at the intermediate registry. -/
theorem runTraceAux_append (fetchF : String → FetchResult) (inspect : List Nat → Except String Nat)
    (snap1 snap2 : List PdfTask) : ∀ reg,
    runTraceAux fetchF inspect (snap1 ++ snap2) reg =
      runTraceAux fetchF inspect snap1 reg ++
        runTraceAux fetchF inspect snap2 (runAux fetchF inspect snap1 reg) := by
  induction snap1 with
  | nil => intro reg; simp [runTraceAux, runAux]
  | cons task rest ih =>
    intro reg
    simp only [List.cons_append, runTraceAux, runAux, List.append_eq, ih, List.append_assoc]

/-- The §3 payload invariant survives every stage update applied to a
non-Completed task. -/
theorem TaskInv_stages (t : PdfTask) (h : TaskInv t) (hc : t.status ≠ TaskStatus.completed) :
    TaskInv (dlU t) ∧ TaskInv (anU (dlU t)) ∧ ∀ out, TaskInv (endUpdate out t) := by
  obtain ⟨h1, h2⟩ := h
  have hpc : t.pageCount = none := by
    cases hp : t.pageCount with
    | none => rfl
    | some n => exact absurd (h1.mp (by simp [hp])) hc
  refine ⟨?_, ?_, ?_⟩
  · constructor <;> simp [dlU, hpc]
  · constructor <;> simp [anU, dlU, hpc]
  · intro out
    cases out with
    | ok n => constructor <;> simp [endUpdate]
    | error m => constructor <;> simp [endUpdate, hpc]

/-- Every state published during one task's processing keeps the §3 payload
invariant, provided the incoming registry satisfies it and agrees with the
snapshot task on its id. -/
theorem trace_state_TaskInv (fetchF : String → FetchResult) (inspect : List Nat → Except String Nat)
    (reg : List PdfTask) (task : PdfTask) (s : List PdfTask)
    (hs : s ∈ processTaskTrace fetchF inspect reg task)
    (hcorr : ∀ r ∈ reg, r.id = task.id → r = task)
    (hinv : ∀ r ∈ reg, TaskInv r) : ∀ r' ∈ s, TaskInv r' := by
  obtain ⟨hc, u, hseq, _, hstage⟩ := trace_state_mem fetchF inspect reg task s hs
  subst hseq
  intro r' hr'
  simp only [setStatus, List.mem_map] at hr'
  rcases hr' with ⟨r, hr, hrr⟩
  by_cases h : r.id = task.id
  · have hrt : r = task := hcorr r hr h
    have hit : TaskInv task := hrt ▸ hinv r hr
    rw [← hrr]
    simp only [h, if_true, ite_true]
    rw [hrt]
    rcases hstage with h1 | h1 | ⟨out, h1⟩ <;> subst h1
    · exact (TaskInv_stages task hit hc).1
    · exact (TaskInv_stages task hit hc).2.1
    · exact (TaskInv_stages task hit hc).2.2 out
  · rw [← hrr]
    simp only [h, if_false, ite_false]
    exact hinv r hr

/-- The §3 payload invariant survives the whole handling of one task. -/
theorem processTask_TaskInv (fetchF : String → FetchResult) (inspect : List Nat → Except String Nat)
    (reg : List PdfTask) (task : PdfTask)
    (hcorr : ∀ r ∈ reg, r.id = task.id → r = task)
    (hinv : ∀ r ∈ reg, TaskInv r) :
    ∀ r' ∈ processTask fetchF inspect reg task, TaskInv r' := by
  rw [processTask_eq]
  by_cases hc : task.status = TaskStatus.completed
  · simpa [hc] using hinv
  · simp only [hc, if_false, ite_false, setStatus]
    intro r' hr'
    rcases List.mem_map.mp hr' with ⟨r, hr, hrr⟩
    by_cases h : r.id = task.id
    · have hrt : r = task := hcorr r hr h
      have hit : TaskInv task := hrt ▸ hinv r hr
      rw [← hrr]
      simp only [h, if_true, ite_true]
      rw [hrt]
      exact (TaskInv_stages task hit hc).2.2 _
    · rw [← hrr]
      simp only [h, if_false, ite_false]
      exact hinv r hr

/-- The §3 payload invariant holds in every registry state published during a
run, and in the final registry. -/
theorem runTrace_TaskInv (fetchF : String → FetchResult) (inspect : List Nat → Except String Nat)
    (snap : List PdfTask) : ∀ (reg : List PdfTask),
    (snap.map (fun t => t.id)).Nodup →
    (∀ t ∈ snap, ∀ r ∈ reg, r.id = t.id → r = t) →
    (∀ r ∈ reg, TaskInv r) →
    (∀ s ∈ runTraceAux fetchF inspect snap reg, ∀ r ∈ s, TaskInv r) ∧
    (∀ r ∈ runAux fetchF inspect snap reg, TaskInv r) := by
  induction snap with
  | nil =>
    intro reg _ _ hinv
    refine ⟨?_, ?_⟩
    · intro s hs
      exact absurd hs (List.not_mem_nil s)
    · simpa [runAux] using hinv
  | cons task rest ih =>
    intro reg hnd hcorr hinv
    have hndc := hnd
    rw [List.map_cons, List.nodup_cons] at hndc
    have htid : task.id ∉ rest.map (fun t => t.id) := hndc.1
    have hcorrt : ∀ r ∈ reg, r.id = task.id → r = task :=
      hcorr task (List.mem_cons_self task rest)
    have hinv' := processTask_TaskInv fetchF inspect reg task hcorrt hinv
    have hcorr' : ∀ t' ∈ rest, ∀ r' ∈ processTask fetchF inspect reg task, r'.id = t'.id → r' = t' := by
      intro t' ht'
      apply corr_processTask
      · intro he
        exact htid (he ▸ List.mem_map.mpr ⟨t', ht', rfl⟩)
      · intro r hr hid
        exact hcorr t' (List.mem_cons_of_mem task ht') r hr hid
    obtain ⟨ihT, ihF⟩ := ih (processTask fetchF inspect reg task) hndc.2 hcorr' hinv'
    refine ⟨?_, ihF⟩
    intro s hs
    have hs' : s ∈ processTaskTrace fetchF inspect reg task ∨
        s ∈ runTraceAux fetchF inspect rest (processTask fetchF inspect reg task) := by
      simpa [runTraceAux] using hs
    rcases hs' with h | h
    · exact trace_state_TaskInv fetchF inspect reg task s h hcorrt hinv
    · exact ihT s h

/-- Terminal updates leave a task inactive. -/
theorem endUpdate_inactive (out : Except String Nat) (t : PdfTask) :
    isActive (endUpdate out t) = false := by
  cases out <;> simp [isActive, endUpdate]

/-- Handling a task returns the registry to a fully inactive state. -/
theorem processTask_inactive (fetchF : String → FetchResult) (inspect : List Nat → Except String Nat)
    (reg : List PdfTask) (task : PdfTask)
    (hq : ∀ r ∈ reg, isActive r = false) :
    ∀ r' ∈ processTask fetchF inspect reg task, isActive r' = false := by
  rw [processTask_eq]
  by_cases hc : task.status = TaskStatus.completed
  · simpa [hc] using hq
  · simp only [hc, if_false, ite_false, setStatus]
    intro r' hr'
    rcases List.mem_map.mp hr' with ⟨r, hr, hrr⟩
    by_cases h : r.id = task.id
    · rw [← hrr]
      simp only [h, if_true, ite_true]
      exact endUpdate_inactive _ r
    · rw [← hrr]
      simp only [h, if_false, ite_false]
      exact hq r hr

/-- A list of tasks with pairwise distinct ids, all of whose active members
share one id, has at most one active member. -/
theorem active_filter_le_one (j : Nat) : ∀ (l : List PdfTask),
    (l.map (fun t => t.id)).Nodup →
    (∀ r ∈ l, isActive r = true → r.id = j) →
    (l.filter isActive).length ≤ 1 := by
  intro l
  induction l with
  | nil => intro _ _; simp
  | cons a l ih =>
    intro hnd hj
    rw [List.map_cons, List.nodup_cons] at hnd
    by_cases ha : isActive a
    · rw [List.filter_cons_of_pos ha]
      have hl : l.filter isActive = [] := by
        rw [List.filter_eq_nil_iff]
        intro r hr hra
        have h1 : r.id = j := hj r (List.mem_cons_of_mem a hr) hra
        have h2 : a.id = j := hj a (List.mem_cons_self a l) ha
        exact hnd.1 (List.mem_map.mpr ⟨r, hr, by rw [h1, h2]⟩)
      simp [hl]
    · rw [List.filter_cons_of_neg (by simpa using ha)]
      exact ih hnd.2 (fun r hr hra => hj r (List.mem_cons_of_mem a hr) hra)

/-- Mutual exclusion in one task's segment: every published state has at most
one active task, provided the incoming registry has distinct ids and no
active task. -/
theorem trace_state_active (fetchF : String → FetchResult) (inspect : List Nat → Except String Nat)
    (reg : List PdfTask) (task : PdfTask) (s : List PdfTask)
    (hs : s ∈ processTaskTrace fetchF inspect reg task)
    (hnd : (reg.map (fun t => t.id)).Nodup)
    (hq : ∀ r ∈ reg, isActive r = false) :
    (s.filter isActive).length ≤ 1 := by
  obtain ⟨_, u, hseq, huid, _⟩ := trace_state_mem fetchF inspect reg task s hs
  subst hseq
  apply active_filter_le_one task.id
  · rw [setStatus_map_id reg task.id u huid]
    exact hnd
  · intro r' hr' hact
    simp only [setStatus, List.mem_map] at hr'
    rcases hr' with ⟨r, hr, hrr⟩
    by_cases h : r.id = task.id
    · rw [← hrr]
      simp only [h, if_true, ite_true]
      rw [huid r]
      exact h
    · exfalso
      rw [← hrr] at hact
      simp only [h, if_false, ite_false] at hact
      rw [hq r hr] at hact
      exact Bool.false_ne_true hact

/-- Mutual exclusion over the whole run trace: starting from a registry with
distinct ids and no active task, every published state has at most one
active task. -/
theorem runTrace_active (fetchF : String → FetchResult) (inspect : List Nat → Except String Nat)
    (snap : List PdfTask) : ∀ (reg : List PdfTask),
    (reg.map (fun t => t.id)).Nodup →
    (∀ r ∈ reg, isActive r = false) →
    ∀ s ∈ runTraceAux fetchF inspect snap reg, (s.filter isActive).length ≤ 1 := by
  induction snap with
  | nil =>
    intro reg _ _ s hs
    exact absurd hs (List.not_mem_nil s)
  | cons task rest ih =>
    intro reg hnd hq s hs
    have hs' : s ∈ processTaskTrace fetchF inspect reg task ∨
        s ∈ runTraceAux fetchF inspect rest (processTask fetchF inspect reg task) := by
      simpa [runTraceAux] using hs
    rcases hs' with h | h
    · exact trace_state_active fetchF inspect reg task s h hnd hq
    · exact ih (processTask fetchF inspect reg task)
        (by rw [processTask_map_id]; exact hnd)
        (processTask_inactive fetchF inspect reg task hq) s h

/-- Distinct ids make the registry its own snapshot correspondence. -/
theorem corr_of_nodup (reg : List PdfTask) (hnd : (reg.map (fun t => t.id)).Nodup) :
    ∀ t ∈ reg, ∀ r ∈ reg, r.id = t.id → r = t := by
  intro t ht r hr hid
  exact List.inj_on_of_nodup_map hnd hr ht hid

/-- A full run over a registry with distinct ids maps every task to its end
state. -/
theorem runAux_self (fetchF : String → FetchResult) (inspect : List Nat → Except String Nat)
    (reg : List PdfTask) (hnd : (reg.map (fun t => t.id)).Nodup) :
    runAux fetchF inspect reg reg = reg.map (endResult fetchF inspect) := by
  rw [runAux_eq fetchF inspect reg reg hnd (corr_of_nodup reg hnd)]
  apply List.map_congr_left
  intro r hr
  simp [List.mem_map.mpr ⟨r, hr, rfl⟩]

theorem endResult_of_completed (fetchF : String → FetchResult)
    (inspect : List Nat → Except String Nat) (t : PdfTask)
    (hc : t.status = TaskStatus.completed) : endResult fetchF inspect t = t := by
  simp [endResult, hc]

theorem endResult_of_not_completed (fetchF : String → FetchResult)
    (inspect : List Nat → Except String Nat) (t : PdfTask)
    (hc : t.status ≠ TaskStatus.completed) :
    endResult fetchF inspect t = endUpdate (fetchInspectResult fetchF inspect t.url) t := by
  simp [endResult, hc]

/-- After a run every snapshot task is in a terminal status. -/
theorem endResult_terminal (fetchF : String → FetchResult)
    (inspect : List Nat → Except String Nat) (t : PdfTask) :
    (endResult fetchF inspect t).status = TaskStatus.completed ∨
    (endResult fetchF inspect t).status = TaskStatus.failed := by
  by_cases hc : t.status = TaskStatus.completed
  · left
    rw [endResult_of_completed fetchF inspect t hc]
    exact hc
  · rw [endResult_of_not_completed fetchF inspect t hc]
    cases fetchInspectResult fetchF inspect t.url with
    | ok n => left; rfl
    | error m => right; rfl

/-- Positions with equal ids coincide when ids are pairwise distinct. -/
theorem nodup_id_index_inj (reg : List PdfTask) (hnd : (reg.map (fun t => t.id)).Nodup)
    (i j : Nat) (hi : i < reg.length) (hj : j < reg.length)
    (h : (reg.get ⟨i, hi⟩).id = (reg.get ⟨j, hj⟩).id) : i = j := by
  have hi' : i < (reg.map (fun t => t.id)).length := by simpa using hi
  have hj' : j < (reg.map (fun t => t.id)).length := by simpa using hj
  have hg : (reg.map (fun t => t.id)).get ⟨i, hi'⟩ = (reg.map (fun t => t.id)).get ⟨j, hj'⟩ := by
    simp only [List.get_eq_getElem, List.getElem_map]
    simpa using h
  have := (hnd.get_inj_iff).mp hg
  simpa using congrArg Fin.val this

/-- With distinct ids, the id of the `i`-th task occurs among the first `k`
ids exactly when `i < k`. -/
theorem mem_take_ids_iff (reg : List PdfTask) (hnd : (reg.map (fun t => t.id)).Nodup)
    (k i : Nat) (h : i < reg.length) :
    (reg.get ⟨i, h⟩).id ∈ (reg.take k).map (fun t => t.id) ↔ i < k := by
  constructor
  · intro hm
    rcases List.mem_map.mp hm with ⟨s, hsmem, hsid⟩
    rcases List.mem_iff_get.mp hsmem with ⟨⟨j, hj⟩, hsj⟩
    have hjlen : j < reg.length := lt_of_lt_of_le hj (by simp)
    have hjk : j < k := lt_of_lt_of_le hj (by simp [Nat.min_le_left])
    have hgj : (reg.take k).get ⟨j, hj⟩ = reg.get ⟨j, hjlen⟩ := by
      simp [List.get_eq_getElem, List.getElem_take]
    have hid : (reg.get ⟨j, hjlen⟩).id = (reg.get ⟨i, h⟩).id := by
      rw [← hgj, hsj, hsid]
    have := nodup_id_index_inj reg hnd j i hjlen h hid
    omega
  · intro hik
    apply List.mem_map.mpr
    refine ⟨reg.get ⟨i, h⟩, ?_, rfl⟩
    have h1 : (reg.take k)[i]? = reg[i]? := List.getElem?_take_of_lt hik
    have h2 : reg[i]? = some (reg.get ⟨i, h⟩) := by
      simp [List.getElem?_eq_getElem h]
    exact List.getElem?_mem (h1.trans h2)

/-- Tasks built by `processUrls` are fresh Idle tasks carrying the given URLs
in order. -/
theorem buildTasks_spec : ∀ (us : List String) (n : Nat),
    (buildTasks n us).map (fun t => t.url) = us ∧
    ∀ t ∈ buildTasks n us, t.status = TaskStatus.idle ∧ t.pageCount = none ∧
      t.error = none ∧ t.fileName = getFileNameFromUrl t.url ∧ n ≤ t.id := by
  intro us
  induction us with
  | nil => intro n; simp [buildTasks]
  | cons u us ih =>
    intro n
    obtain ⟨ih1, ih2⟩ := ih (n + 1)
    refine ⟨?_, ?_⟩
    · simp [buildTasks, mkTask, ih1]
    · intro t ht
      rcases List.mem_cons.mp ht with h | h
      · subst h
        exact ⟨rfl, rfl, rfl, rfl, le_refl n⟩
      · obtain ⟨h1, h2, h3, h4, h5⟩ := ih2 t h
        exact ⟨h1, h2, h3, h4, le_trans (Nat.le_succ n) h5⟩

/-- C1: with terminating fetch and inspector collaborators, a single run
transitions every snapshot task that is not Completed to exactly one of
Completed or Failed (the two terminal statuses are distinct constructors, so
the disjunction is exclusive), leaves the whole final registry terminal, and
signals "not running" by clearing `isProcessing`. -/
theorem run_terminalizes_and_clears_flag (fetchF : String → FetchResult)
    (inspect : List Nat → Except String Nat) (reg : List PdfTask) (b : Bool)
    (hnd : (reg.map (fun t => t.id)).Nodup) :
    (runTasks fetchF inspect ⟨reg, b⟩).isProcessing = false ∧
    (runTasks fetchF inspect ⟨reg, b⟩).tasks = reg.map (endResult fetchF inspect) ∧
    (∀ t ∈ reg, t.status ≠ TaskStatus.completed →
        ((endResult fetchF inspect t).status = TaskStatus.completed ∨
         (endResult fetchF inspect t).status = TaskStatus.failed)) ∧
    (∀ t ∈ (runTasks fetchF inspect ⟨reg, b⟩).tasks,
        t.status = TaskStatus.completed ∨ t.status = TaskStatus.failed) := by
  have hrun : (runTasks fetchF inspect ⟨reg, b⟩).tasks = reg.map (endResult fetchF inspect) :=
    runAux_self fetchF inspect reg hnd
  refine ⟨rfl, hrun, ?_, ?_⟩
  · intro t _ _
    exact endResult_terminal fetchF inspect t
  · intro t ht
    rw [hrun] at ht
    rcases List.mem_map.mp ht with ⟨r, _, hrt⟩
    rw [← hrt]
    exact endResult_terminal fetchF inspect r

theorem run_terminalizes_and_clears_flag_witness :
    (runTasks fetchW inspectW ⟨regW, true⟩).isProcessing = false ∧
    (runTasks fetchW inspectW ⟨regW, true⟩).tasks = regW.map (endResult fetchW inspectW) :=
  ⟨(run_terminalizes_and_clears_flag fetchW inspectW regW true (by decide)).1,
   (run_terminalizes_and_clears_flag fetchW inspectW regW true (by decide)).2.1⟩

/-- C2: after appending (task creation) and after every status transition
published during a run, `pageCount` is present iff the status is Completed and
`error` is present iff the status is Failed. -/
theorem payload_invariant_preserved (fetchF : String → FetchResult)
    (inspect : List Nat → Except String Nat) (nextId : Nat) (urls : List String)
    (reg : List PdfTask)
    (hnd : (reg.map (fun t => t.id)).Nodup)
    (hinv : ∀ t ∈ reg, TaskInv t) :
    (∀ t ∈ processUrls nextId urls reg, TaskInv t) ∧
    (∀ s ∈ runTraceAux fetchF inspect reg reg, ∀ t ∈ s, TaskInv t) ∧
    (∀ t ∈ runAux fetchF inspect reg reg, TaskInv t) := by
  obtain ⟨hT, hF⟩ := runTrace_TaskInv fetchF inspect reg reg hnd (corr_of_nodup reg hnd) hinv
  refine ⟨?_, hT, hF⟩
  intro t ht
  simp only [processUrls] at ht
  rcases List.mem_append.mp ht with h | h
  · exact hinv t h
  · obtain ⟨h1, h2, h3, _, _⟩ := (buildTasks_spec _ nextId).2 t h
    constructor <;> simp [h1, h2, h3]

theorem payload_invariant_preserved_witness :
    TaskInv ((runAux fetchW inspectW regW regW).getD 0 (mkTask 0 (""))) :=
  (payload_invariant_preserved fetchW inspectW 0 [] regW (by decide) (by decide)).2.2
    ((runAux fetchW inspectW regW regW).getD 0 (mkTask 0 (""))) (by decide)

/-- C4: per-task failures never abort the run: the whole snapshot is mapped to
end states, and a task whose fetch fails at transport level, returns a non-2xx
status, or whose inspection fails ends Failed with exactly the prescribed
message in `error`. -/
theorem per_task_failure_nonfatal (fetchF : String → FetchResult)
    (inspect : List Nat → Except String Nat) (reg : List PdfTask)
    (hnd : (reg.map (fun t => t.id)).Nodup) :
    (runTasks fetchF inspect ⟨reg, true⟩).tasks = reg.map (endResult fetchF inspect) ∧
    ∀ t ∈ reg, t.status ≠ TaskStatus.completed →
      ((∀ m, fetchF t.url = FetchResult.networkError m →
          endResult fetchF inspect t = { t with status := TaskStatus.failed, error := some m }) ∧
       (∀ st body, fetchF t.url = FetchResult.response st body → respOk st = false →
          endResult fetchF inspect t =
            { t with status := TaskStatus.failed,
                     error := some (("HTTP ") ++ toString st ++ (": Failed to download")) }) ∧
       (∀ st body m, fetchF t.url = FetchResult.response st body → respOk st = true →
          inspect body = Except.error m →
          endResult fetchF inspect t = { t with status := TaskStatus.failed, error := some m })) := by
  refine ⟨runAux_self fetchF inspect reg hnd, ?_⟩
  intro t _ hc
  refine ⟨?_, ?_, ?_⟩
  · intro m hf
    rw [endResult_of_not_completed fetchF inspect t hc]
    simp [fetchInspectResult, hf, endUpdate]
  · intro st body hf hok
    rw [endResult_of_not_completed fetchF inspect t hc]
    simp [fetchInspectResult, hf, hok, endUpdate]
  · intro st body m hf hok hg
    rw [endResult_of_not_completed fetchF inspect t hc]
    simp [fetchInspectResult, hf, hok, hg, endUpdate]

theorem per_task_failure_nonfatal_witness :
    (runTasks fetchW inspectW ⟨regW, true⟩).tasks = regW.map (endResult fetchW inspectW) ∧
    (runTasks fetchW inspectW ⟨regW, true⟩).tasks.map (fun t => t.status) =
      [TaskStatus.completed, TaskStatus.failed, TaskStatus.completed] ∧
    (runTasks fetchW inspectW ⟨regW, true⟩).tasks.map (fun t => t.error) =
      [none, some (("HTTP 404: Failed to download")), none] :=
  ⟨(per_task_failure_nonfatal fetchW inspectW regW (by decide)).1, by decide, by decide⟩

/-- C5: in every reachable state of a run started from a quiescent registry
(no task Downloading or Analyzing) with distinct ids, at most one task is
Downloading or Analyzing. -/
theorem run_mutual_exclusion (fetchF : String → FetchResult)
    (inspect : List Nat → Except String Nat) (reg : List PdfTask)
    (hnd : (reg.map (fun t => t.id)).Nodup)
    (hq : ∀ t ∈ reg, t.status ≠ TaskStatus.downloading ∧ t.status ≠ TaskStatus.analyzing) :
    ∀ s, s ∈ reg :: runTraceAux fetchF inspect reg reg →
      (s.filter isActive).length ≤ 1 := by
  have hq' : ∀ r ∈ reg, isActive r = false := by
    intro r hr
    obtain ⟨h1, h2⟩ := hq r hr
    simp [isActive, h1, h2]
  intro s hs
  rcases List.mem_cons.mp hs with h | h
  · subst h
    have : s.filter isActive = [] := List.filter_eq_nil_iff.mpr (by simpa using hq')
    simp [this]
  · exact runTrace_active fetchF inspect reg reg hnd hq' s h

theorem run_mutual_exclusion_witness :
    (regW.filter isActive).length ≤ 1 :=
  run_mutual_exclusion fetchW inspectW regW (by decide) (by decide) regW
    (List.mem_cons_self regW (runTraceAux fetchW inspectW regW regW))

/-- Running only the first `k` snapshot tasks terminalizes exactly the
entries whose id appears among the first `k` ids. -/
theorem runAux_take_eq (fetchF : String → FetchResult) (inspect : List Nat → Except String Nat)
    (reg : List PdfTask) (hnd : (reg.map (fun t => t.id)).Nodup) (k : Nat) :
    runAux fetchF inspect (reg.take k) reg =
      reg.map (fun r => if r.id ∈ (reg.take k).map (fun t => t.id)
        then endResult fetchF inspect r else r) := by
  apply runAux_eq
  · rw [List.map_take]
    exact hnd.sublist (List.take_sublist k (reg.map (fun t => t.id)))
  · intro t ht r hr hid
    exact corr_of_nodup reg hnd t (List.take_subset k reg ht) r hr hid

/-- C6: the run operates on the snapshot frozen at run start: entries whose
ids are not in the snapshot (tasks appended after the run started) pass
through a run untouched, and after the loop has handled the first `k`
snapshot tasks, exactly the tasks at positions below `k` have reached their
end state, in snapshot order, while every later task is still untouched. -/
theorem run_snapshot_frozen_in_order (fetchF : String → FetchResult)
    (inspect : List Nat → Except String Nat) (reg : List PdfTask)
    (hnd : (reg.map (fun t => t.id)).Nodup) :
    (∀ extra : List PdfTask, (∀ e ∈ extra, e.id ∉ reg.map (fun t => t.id)) →
       runAux fetchF inspect reg (reg ++ extra) = runAux fetchF inspect reg reg ++ extra) ∧
    (∀ k i : Nat, (runAux fetchF inspect (reg.take k) reg)[i]? =
       if i < k then reg[i]?.map (endResult fetchF inspect) else reg[i]?) := by
  constructor
  · intro extra hextra
    exact runAux_append fetchF inspect reg reg extra hextra
  · intro k i
    rw [runAux_take_eq fetchF inspect reg hnd k, List.getElem?_map]
    rcases Nat.lt_or_ge i reg.length with hi | hi
    · have hgi : reg[i]? = some (reg.get ⟨i, hi⟩) := by
        simp [List.getElem?_eq_getElem hi]
      rw [hgi]
      by_cases hik : i < k
      · have hm := (mem_take_ids_iff reg hnd k i hi).mpr hik
        simp only [Option.map_some', hik, if_true, ite_true, hm]
      · have hni : (reg.get ⟨i, hi⟩).id ∉ (reg.take k).map (fun t => t.id) := fun hm =>
          hik ((mem_take_ids_iff reg hnd k i hi).mp hm)
        simp only [Option.map_some', hik, if_false, ite_false, hni]
    · have hgi : reg[i]? = none := List.getElem?_eq_none hi
      simp [hgi]

theorem run_snapshot_frozen_in_order_witness :
    runAux fetchW inspectW regW (regW ++ [extraW]) = runAux fetchW inspectW regW regW ++ [extraW] :=
  (run_snapshot_frozen_in_order fetchW inspectW regW (by decide)).1 [extraW] (by decide)

/-- C3: a re-run skips every task already Completed (its whole record, its
`pageCount` included, is untouched), while every task that starts Failed is
re-processed: the run publishes a state in which it is Downloading with its
prior error cleared, and its end state is the terminal update for its URL's
fetch/inspect outcome rather than its old record. -/
theorem rerun_skips_completed_retries_failed (fetchF : String → FetchResult)
    (inspect : List Nat → Except String Nat) (reg : List PdfTask)
    (hnd : (reg.map (fun t => t.id)).Nodup) :
    (runAux fetchF inspect reg reg = reg.map (endResult fetchF inspect)) ∧
    (∀ t ∈ reg, t.status = TaskStatus.completed → endResult fetchF inspect t = t) ∧
    (∀ t ∈ reg, t.status = TaskStatus.failed →
       endResult fetchF inspect t = endUpdate (fetchInspectResult fetchF inspect t.url) t) ∧
    (∀ i : Nat, ∀ h : i < reg.length, (reg.get ⟨i, h⟩).status = TaskStatus.failed →
       ∃ s ∈ runTraceAux fetchF inspect reg reg,
         { reg.get ⟨i, h⟩ with status := TaskStatus.downloading, error := none } ∈ s) := by
  refine ⟨runAux_self fetchF inspect reg hnd, ?_, ?_, ?_⟩
  · intro t _ hc
    exact endResult_of_completed fetchF inspect t hc
  · intro t _ hfail
    apply endResult_of_not_completed
    rw [hfail]
    decide
  · intro i h hfail
    have hcne : (reg.get ⟨i, h⟩).status ≠ TaskStatus.completed := by
      rw [hfail]
      decide
    have hsplit : runTraceAux fetchF inspect reg reg =
        runTraceAux fetchF inspect (reg.take i) reg ++
          runTraceAux fetchF inspect (reg.drop i) (runAux fetchF inspect (reg.take i) reg) := by
      have := runTraceAux_append fetchF inspect (reg.take i) (reg.drop i) reg
      rw [List.take_append_drop] at this
      exact this
    have hdrop : reg.drop i = reg.get ⟨i, h⟩ :: reg.drop (i + 1) := by
      rw [List.drop_eq_getElem_cons h]
      simp [List.get_eq_getElem]
    have htmem : reg.get ⟨i, h⟩ ∈ runAux fetchF inspect (reg.take i) reg := by
      rw [runAux_take_eq fetchF inspect reg hnd i]
      apply List.mem_map.mpr
      refine ⟨reg.get ⟨i, h⟩, List.get_mem reg i h, ?_⟩
      have hni : (reg.get ⟨i, h⟩).id ∉ (reg.take i).map (fun t => t.id) := fun hm =>
        absurd ((mem_take_ids_iff reg hnd i i h).mp hm) (lt_irrefl i)
      simp only [hni, if_false, ite_false]
    refine ⟨setStatus (runAux fetchF inspect (reg.take i) reg) (reg.get ⟨i, h⟩).id dlU, ?_, ?_⟩
    · rw [hsplit]
      apply List.mem_append_right
      rw [hdrop]
      have hseg : setStatus (runAux fetchF inspect (reg.take i) reg) (reg.get ⟨i, h⟩).id dlU ∈
          processTaskTrace fetchF inspect (runAux fetchF inspect (reg.take i) reg)
            (reg.get ⟨i, h⟩) :=
        dl_state_mem_trace fetchF inspect (runAux fetchF inspect (reg.take i) reg)
          (reg.get ⟨i, h⟩) hcne
      have hru : runTraceAux fetchF inspect (reg.get ⟨i, h⟩ :: reg.drop (i + 1))
            (runAux fetchF inspect (reg.take i) reg) =
          processTaskTrace fetchF inspect (runAux fetchF inspect (reg.take i) reg)
              (reg.get ⟨i, h⟩) ++
            runTraceAux fetchF inspect (reg.drop (i + 1))
              (processTask fetchF inspect (runAux fetchF inspect (reg.take i) reg)
                (reg.get ⟨i, h⟩)) := rfl
      rw [hru]
      exact List.mem_append_left _ hseg
    · show dlU (reg.get ⟨i, h⟩) ∈ _
      unfold setStatus
      apply List.mem_map.mpr
      exact ⟨reg.get ⟨i, h⟩, htmem, by simp⟩

theorem rerun_skips_completed_retries_failed_witness :
    runAux fetchW inspectW regW2 regW2 = regW2.map (endResult fetchW inspectW) ∧
    (runAux fetchW inspectW regW2 regW2).map (fun t => (t.status, t.pageCount)) =
      [(TaskStatus.completed, some 7), (TaskStatus.failed, none)] :=
  ⟨(rerun_skips_completed_retries_failed fetchW inspectW regW2 (by decide)).1, by decide⟩

/-- C7 counterexample: the input string `"  https://a/x.pdf"` starts with
neither allowed scheme prefix, so the claim as stated requires `processUrls`
to drop it and leave the registry unchanged; the code trims first and creates
a task for it. -/
theorem processUrls_counterexample :
    strStarts ("  https://a/x.pdf") ("http://") = false ∧
    strStarts ("  https://a/x.pdf") ("https://") = false ∧
    processUrls 0 [("  https://a/x.pdf")] [] ≠ [] := by
  refine ⟨by decide, by decide, by decide⟩

/-- C7 (amended): `processUrls` creates one new Idle task, with fresh id and
derived displayName, for each input string whose whitespace-trimmed form
starts with `http://` or `https://` (storing the trimmed string as the url),
appends them at the tail preserving relative input order, and silently drops
every other string; the scenario input yields exactly 2 new Idle tasks. -/
theorem processUrls_appends_trimmed_valid (nextId : Nat) (urls : List String)
    (prev : List PdfTask) (hfresh : ∀ t ∈ prev, t.id < nextId) :
    (∃ l, processUrls nextId urls prev = prev ++ l ∧
       l.map (fun t => t.url) = (urls.map strTrim).filter validUrl ∧
       (∀ t ∈ l, t.status = TaskStatus.idle ∧ t.fileName = getFileNameFromUrl t.url ∧
         ∀ p ∈ prev, t.id ≠ p.id)) ∧
    (processUrls 0 [("https://a/x.pdf"), ("not-a-url"), ("https://b/y.pdf")] []).length = 2 ∧
    (∀ t ∈ processUrls 0 [("https://a/x.pdf"), ("not-a-url"), ("https://b/y.pdf")] [],
       t.status = TaskStatus.idle) := by
  refine ⟨?_, by decide, by decide⟩
  refine ⟨buildTasks nextId ((urls.map strTrim).filter validUrl), rfl,
    (buildTasks_spec _ nextId).1, ?_⟩
  intro t ht
  obtain ⟨h1, _, _, h4, h5⟩ := (buildTasks_spec _ nextId).2 t ht
  refine ⟨h1, h4, ?_⟩
  intro p hp
  have := hfresh p hp
  omega

theorem processUrls_appends_trimmed_valid_witness :
    (processUrls 0 [("https://a/x.pdf"), ("not-a-url"), ("https://b/y.pdf")] []).length = 2 :=
  (processUrls_appends_trimmed_valid 0
    [("https://a/x.pdf"), ("not-a-url"), ("https://b/y.pdf")] []
    (by intro t ht; exact absurd ht (List.not_mem_nil t))).2.1

/-- C8: displayName derivation returns the percent-decoded last path segment
of the parsed URL (query and fragment stripped), and returns the fixed
default `document.pdf` whenever the URL does not parse, the percent-decoding
fails, or the decoded segment is empty; in particular the spec's two example
URLs derive `report.pdf` and ` name.pdf`. -/
theorem displayName_derivation :
    getFileNameFromUrl ("https://host/path/report.pdf?x=1#y") = ("report.pdf") ∧
    getFileNameFromUrl ("https://host/path/%20name.pdf") = (" name.pdf") ∧
    getFileNameFromUrl ("not-a-url") = ("document.pdf") ∧
    (∀ url, parseURL url = none → getFileNameFromUrl url = ("document.pdf")) ∧
    (∀ url p, parseURL url = some p → decodeURIComponentM (cleanFileNameOf p.pathname) = none →
       getFileNameFromUrl url = ("document.pdf")) ∧
    (∀ url p, parseURL url = some p →
       decodeURIComponentM (cleanFileNameOf p.pathname) = some ("") →
       getFileNameFromUrl url = ("document.pdf")) ∧
    (∀ url p s, parseURL url = some p →
       decodeURIComponentM (cleanFileNameOf p.pathname) = some s → s ≠ ("") →
       getFileNameFromUrl url = s) := by
  refine ⟨by decide, by decide, by decide, ?_, ?_, ?_, ?_⟩
  · intro url h
    simp [getFileNameFromUrl, h]
  · intro url p h1 h2
    simp [getFileNameFromUrl, h1, h2]
  · intro url p h1 h2
    simp [getFileNameFromUrl, h1, h2]
  · intro url p s h1 h2 hs
    simp [getFileNameFromUrl, h1, h2, hs]

/-- C9: export produces one record per task in registry order, carrying the
task's file name and URL, and a Page Count cell that is the recorded count
for a Completed task, `Error` for a Failed task, and `Pending` otherwise —
under the §3 invariant tying `pageCount` to the Completed status. -/
theorem export_projects_registry (tasks : List PdfTask)
    (hinv : ∀ t ∈ tasks, t.pageCount.isSome ↔ t.status = TaskStatus.completed) :
    (exportToExcel tasks).length = tasks.length ∧
    (∀ i : Nat, ∀ t : PdfTask, tasks[i]? = some t →
       ∃ r, (exportToExcel tasks)[i]? = some r ∧ r.fileName = t.fileName ∧ r.url = t.url ∧
         (t.status = TaskStatus.completed →
            ∃ n, t.pageCount = some n ∧ r.pageCount = PageCell.count n) ∧
         (t.status = TaskStatus.failed → r.pageCount = PageCell.text ("Error")) ∧
         (t.status ≠ TaskStatus.completed → t.status ≠ TaskStatus.failed →
            r.pageCount = PageCell.text ("Pending"))) := by
  constructor
  · simp [exportToExcel]
  · intro i t hit
    have hmem : t ∈ tasks := List.getElem?_mem hit
    refine ⟨{ fileName := t.fileName, url := t.url, pageCount := (match t.pageCount with | some n => PageCell.count n | none => if t.status = TaskStatus.failed then PageCell.text ("Error") else PageCell.text ("Pending")) }, ?_, rfl, rfl, ?_, ?_, ?_⟩
    · simp only [exportToExcel, List.getElem?_map, hit, Option.map_some']
    · intro hc
      rcases Option.isSome_iff_exists.mp ((hinv t hmem).mpr hc) with ⟨n, hn⟩
      exact ⟨n, hn, by simp [hn]⟩
    · intro hfail
      have hn : t.pageCount = none := by
        cases hp : t.pageCount with
        | none => rfl
        | some n =>
          have hcc := (hinv t hmem).mp (by simp [hp])
          rw [hcc] at hfail
          exact absurd hfail (by decide)
      simp [hn, hfail]
    · intro hnc hnf
      have hn : t.pageCount = none := by
        cases hp : t.pageCount with
        | none => rfl
        | some n => exact absurd ((hinv t hmem).mp (by simp [hp])) hnc
      simp [hn, hnf]

theorem export_projects_registry_witness :
    (exportToExcel regW2).length = regW2.length ∧
    exportToExcel regW2 = [
      { fileName := ("x.pdf"), url := ("https://a/x.pdf"), pageCount := PageCell.count 7 },
      { fileName := ("404.pdf"), url := ("https://b/404.pdf"),
        pageCount := PageCell.text ("Error") }] :=
  ⟨(export_projects_registry regW2 (by decide)).1, by decide⟩

/-- C10: `processUrls` trims each input before the allowed-scheme filter and
stores the trimmed string as the created task's url; strings that are empty
or whitespace-only are dropped; a padded input creates a task whose url
differs from the raw input. -/
theorem processUrls_trims_before_filter (nextId : Nat) (urls : List String)
    (prev : List PdfTask) :
    (∀ t ∈ processUrls nextId urls prev,
       t ∈ prev ∨ ∃ u ∈ urls, t.url = strTrim u ∧ validUrl (strTrim u) = true) ∧
    ((∀ u ∈ urls, strTrim u = ("")) → processUrls nextId urls prev = prev) ∧
    processUrls 0 [("  https://a/x.pdf  ")] [] = [mkTask 0 ("https://a/x.pdf")] ∧
    strTrim ("  https://a/x.pdf  ") ≠ ("  https://a/x.pdf  ") := by
  refine ⟨?_, ?_, by decide, by decide⟩
  · intro t ht
    simp only [processUrls] at ht
    rcases List.mem_append.mp ht with h | h
    · exact Or.inl h
    · right
      have hurl : t.url ∈ (urls.map strTrim).filter validUrl := by
        rw [← (buildTasks_spec ((urls.map strTrim).filter validUrl) nextId).1]
        exact List.mem_map.mpr ⟨t, h, rfl⟩
      rcases List.mem_filter.mp hurl with ⟨h1, h2⟩
      rcases List.mem_map.mp h1 with ⟨u, hu, hustrim⟩
      refine ⟨u, hu, hustrim.symm, ?_⟩
      rw [hustrim]
      exact h2
  · intro hws
    have hnil : (urls.map strTrim).filter validUrl = [] := by
      rw [List.filter_eq_nil_iff]
      intro a ha
      rcases List.mem_map.mp ha with ⟨u, hu, hstrim⟩
      rw [← hstrim, hws u hu]
      decide
    simp [processUrls, hnil, buildTasks]

end PdfPageDetector
